import Mathlib

/-!
Verification of the legal-document-enhancement pipeline
(`legal_document_enhancement/`: `chunker.py`, `archive_processor.py`,
`email_processor.py`, `document_processor.py`).

The Python source is shallowly embedded: pure fragments become Lean
functions over `List Char` / `String` / `List Int`; fallible library calls
(file reads, archive opens, the rich per-format extraction bodies) become
`Except String`-valued parameters, with the repository's `try/except`
ladders translated to `match` on those values; Python `dict` metadata
becomes an association list with insert-or-replace update.  Floating-point
sentence embeddings are idealised as integer vectors with an exact
rational-threshold cosine comparison (cosine is invariant under positive
scaling, so integer vectors lose no generality); the grouping loop is in
addition stated over an arbitrary similarity oracle wherever a claim
quantifies over all embeddings.
-/

namespace Legal

/-- Whitespace characters stripped by Python `str.strip()` (ASCII fragment). -/
def isPySpace (c : Char) : Bool :=
  c = ' ' || c = '\t' || c = '\n' || c = '\r' || c = '\x0b' || c = '\x0c'

/-- Model of Python `str.strip()`: drop leading and trailing whitespace. -/
def trimChars (l : List Char) : List Char :=
  ((l.dropWhile isPySpace).reverse.dropWhile isPySpace).reverse

/-- String form of `trimChars`; models `chunk_text.strip()` / `s.strip()`. -/
def pyStrip (s : String) : String := ⟨trimChars s.data⟩

/-- Model of `" ".join(current_chunk)` (chunker.py lines 178/183/193). -/
def joinSpace : List String → String
  | [] => ""
  | [s] => s
  | s :: t :: rest => s ++ " " ++ joinSpace (t :: rest)

/-- Sentence terminator characters of the regex `[.!?]+`
(chunker.py `_split_into_sentences`, line 154). -/
def isSentTerm (c : Char) : Bool := c = '.' || c = '!' || c = '?'

/-- Split a character list at every sentence-terminator character.
`re.split(r'[.!?]+', text)` collapses terminator runs into one delimiter;
splitting at every single terminator instead inserts extra empty pieces
between consecutive terminators, and `_split_into_sentences` drops empty
pieces right after, so the two agree after the strip-and-filter step. -/
def splitRunChars : List Char → List (List Char)
  | [] => [[]]
  | c :: cs =>
    let r := splitRunChars cs
    if isSentTerm c then [] :: r
    else (c :: r.headD []) :: r.tail

/-- Model of `LegalChunker._split_into_sentences` (chunker.py lines 149-157):
`sentences = re.split(r'[.!?]+', text)` then
`[s.strip() for s in sentences if s.strip()]`. -/
def splitIntoSentences (text : String) : List String :=
  ((((splitRunChars text.data).map trimChars).filter (fun l => l ≠ [])).map
    (fun l => (⟨l⟩ : String)))

/-- Final path component, as `pathlib.Path(p).name`. -/
def baseName (p : String) : String :=
  ⟨((p.data.reverse.takeWhile (fun c => c ≠ '/')).reverse)⟩

/-- Model of `pathlib.Path(p).suffix`: the final component's substring from
its last dot, provided that dot is neither the first nor the last
character of the component (CPython: `i = name.rfind('.');
return name[i:] if 0 < i < len(name) - 1 else ''`).
In particular the suffix of `x.tar.gz` is `.gz`, never `.tar.gz`. -/
def pathSuffix (p : String) : String :=
  let name := (baseName p).data
  match name.reverse.findIdx? (fun c => c = '.') with
  | none => ""
  | some j =>
    let i := name.length - 1 - j
    if 0 < i ∧ i < name.length - 1 then ⟨name.drop i⟩ else ""

/-- Model of Python `str.lower()` on extension strings. -/
def lowerStr (s : String) : String := ⟨s.data.map Char.toLower⟩

/-- Model of `file_path.suffix.lower()` as used by every dispatch site. -/
def pathSuffixLower (p : String) : String := lowerStr (pathSuffix p)

/-- UTF-8 continuation byte test: `0x80 ≤ b ≤ 0xBF`. -/
def utf8Cont (b : Nat) : Bool := 0x80 ≤ b && b ≤ 0xBF

/-- Allowed first continuation byte after a three-byte lead (excludes
overlong encodings and surrogates, as CPython's decoder does). -/
def utf8First3 (b c1 : Nat) : Bool :=
  if b = 0xE0 then 0xA0 ≤ c1 && c1 ≤ 0xBF
  else if b = 0xED then 0x80 ≤ c1 && c1 ≤ 0x9F
  else utf8Cont c1

/-- Allowed first continuation byte after a four-byte lead. -/
def utf8First4 (b c1 : Nat) : Bool :=
  if b = 0xF0 then 0x90 ≤ c1 && c1 ≤ 0xBF
  else if b = 0xF4 then 0x80 ≤ c1 && c1 ≤ 0x8F
  else utf8Cont c1

/-- Fuel-indexed worker for `decodeUtf8Ignore`; each step consumes at least
one byte, so fuel = input length suffices. Invalid sequences are skipped
(their maximal valid subpart is consumed), as CPython's `errors='ignore'`
handler does. -/
def decodeUtf8Aux : Nat → List Nat → List Char
  | 0, _ => []
  | _ + 1, [] => []
  | fuel + 1, b :: rest =>
    if b ≤ 0x7F then Char.ofNat b :: decodeUtf8Aux fuel rest
    else if 0xC2 ≤ b && b ≤ 0xDF then
      match rest with
      | [] => []
      | c1 :: rest2 =>
        if utf8Cont c1 then
          Char.ofNat ((b - 0xC0) * 0x40 + (c1 - 0x80)) :: decodeUtf8Aux fuel rest2
        else decodeUtf8Aux fuel rest
    else if 0xE0 ≤ b && b ≤ 0xEF then
      match rest with
      | [] => []
      | [c1] => if utf8First3 b c1 then [] else decodeUtf8Aux fuel [c1]
      | c1 :: c2 :: rest3 =>
        if utf8First3 b c1 && utf8Cont c2 then
          Char.ofNat ((b - 0xE0) * 0x1000 + (c1 - 0x80) * 0x40 + (c2 - 0x80)) ::
            decodeUtf8Aux fuel rest3
        else if utf8First3 b c1 then decodeUtf8Aux fuel (c2 :: rest3)
        else decodeUtf8Aux fuel rest
    else if 0xF0 ≤ b && b ≤ 0xF4 then
      match rest with
      | [] => []
      | [c1] => if utf8First4 b c1 then [] else decodeUtf8Aux fuel [c1]
      | [c1, c2] =>
        if utf8First4 b c1 && utf8Cont c2 then []
        else if utf8First4 b c1 then decodeUtf8Aux fuel [c2]
        else decodeUtf8Aux fuel [c1, c2]
      | c1 :: c2 :: c3 :: rest4 =>
        if utf8First4 b c1 && utf8Cont c2 && utf8Cont c3 then
          Char.ofNat ((b - 0xF0) * 0x40000 + (c1 - 0x80) * 0x1000 +
              (c2 - 0x80) * 0x40 + (c3 - 0x80)) :: decodeUtf8Aux fuel rest4
        else if utf8First4 b c1 && utf8Cont c2 then decodeUtf8Aux fuel (c3 :: rest4)
        else if utf8First4 b c1 then decodeUtf8Aux fuel (c2 :: c3 :: rest4)
        else decodeUtf8Aux fuel rest
    else decodeUtf8Aux fuel rest

/-- Model of `content.decode('utf-8', errors='ignore')`
(archive_processor.py line 112 and siblings): decode UTF-8, silently
dropping invalid byte sequences.  This function is total, which is why the
`except UnicodeDecodeError` branches guarded by it can never run. -/
def decodeUtf8Ignore (bs : List Nat) : String := ⟨decodeUtf8Aux bs.length bs⟩

/-- Scalar values stored in the Python metadata dictionaries. -/
inductive MValue where
  | nat (n : Nat)
  | str (s : String)
  | boolean (b : Bool)
  | strList (l : List String)
deriving DecidableEq

/-- Python `dict` of metadata, modelled as an association list in insertion
order; `mdSet` is `dict.update` for one key (replace in place or append). -/
abbrev Metadata := List (String × MValue)

/-- Insert-or-replace one key, as Python `dict.__setitem__` / `update`. -/
def mdSet : Metadata → String → MValue → Metadata
  | [], k, v => [(k, v)]
  | (k', v') :: rest, k, v =>
    if k' = k then (k, v) :: rest else (k', v') :: mdSet rest k v

/-- Dictionary lookup, `d.get(k)`. -/
def mdGet : Metadata → String → Option MValue
  | [], _ => none
  | (k', v) :: rest, k => if k' = k then some v else mdGet rest k

/-- LangChain `Document` as the chunker consumes and produces it:
`page_content` plus `metadata`. -/
structure Doc where
  page_content : String
  metadata : Metadata
deriving DecidableEq

/-- Embeddings: one integer vector per sentence.  Real embeddings are float
vectors; cosine similarity is invariant under positive scaling of either
argument, so exact integer vectors describe every rational direction. -/
abbrev Emb := List Int

/-- Dot product of two embedding vectors (trailing coordinates of the longer
vector are ignored, as `zipWith` truncates; all call sites use equal
lengths). -/
def dotE (x y : Emb) : Int := (List.zipWith (· * ·) x y).sum

/-- Componentwise sum of a list of vectors; `np.mean(l, axis=0)` equals this
divided by `l.length`. -/
def vsum : List Emb → Emb
  | [] => []
  | [v] => v
  | v :: w :: rest => List.zipWith (· + ·) v (vsum (w :: rest))

/-- Exact test `cos_sim(x, y) < tn / td` for integer vectors and a rational
threshold with `td > 0`: the division and square root of the cosine are
eliminated by sign analysis and squaring.  When either vector is zero the
float cosine is NaN and every `<` comparison on it is `False`, matching the
`s = 0` branch. -/
def cosSimLtThreshold (tn td : Int) (x y : Emb) : Bool :=
  let d := dotE x y
  let s := dotE x x * dotE y y
  if s = 0 then false
  else if 0 ≤ tn then
    if d < 0 then true else d * d * td * td < tn * tn * s
  else
    if 0 ≤ d then false else tn * tn * s < d * d * td * td

/-- Model of `util.cos_sim(embedding, np.mean(current_chunk_embeddings,
axis=0)).item() < self.similarity_threshold` (chunker.py lines 172-173):
`np.mean` is `vsum` divided by the (positive) count, and cosine ignores
positive scaling, so comparing against the sum is exact. -/
def simBelowCos (tn td : Int) (e : Emb) (currentEmbs : List Emb) : Bool :=
  cosSimLtThreshold tn td e (vsum currentEmbs)

/-- Loop of `LegalChunker._group_sentences_semantically` (chunker.py lines
159-195), with the threshold comparison abstracted into `simBelow`
(instantiated by `simBelowCos` for concrete runs): walk the
sentence/embedding pairs, start a chunk when the running chunk is empty,
close it when the similarity is below threshold or the running chunk's
joined length already exceeds `maxSize`, and flush the final chunk. -/
def groupGo (simBelow : Emb → List Emb → Bool) (maxSize : Nat)
    (current : List String) (currentEmbs : List Emb) :
    List (String × Emb) → List String
  | [] => if current.isEmpty then [] else [joinSpace current]
  | (sentence, embedding) :: rest =>
    if current.isEmpty then groupGo simBelow maxSize [sentence] [embedding] rest
    else if simBelow embedding currentEmbs = true ∨ maxSize < (joinSpace current).length then
      joinSpace current :: groupGo simBelow maxSize [sentence] [embedding] rest
    else
      groupGo simBelow maxSize (current ++ [sentence]) (currentEmbs ++ [embedding]) rest

/-- `LegalChunker._group_sentences_semantically(sentences, embeddings)`:
the loop above started from an empty running chunk. -/
def groupSentencesSemantically (simBelow : Emb → List Emb → Bool)
    (maxSize : Nat) (pairs : List (String × Emb)) : List String :=
  groupGo simBelow maxSize [] [] pairs

/-- Index the elements of a list starting at `n`, as Python `enumerate`. -/
def enumFrom (n : Nat) : List α → List (Nat × α)
  | [] => []
  | x :: xs => (n, x) :: enumFrom (n + 1) xs

/-- Chunk-to-Document conversion of `_semantic_chunk` (chunker.py lines
136-147): keep chunks whose stripped length reaches `minSize`; each kept
chunk gets the parent metadata updated with its pre-filter index `i`,
`chunking_method = "semantic"` and `total_chunks =` the pre-filter count. -/
def chunksOfGroups (minSize : Nat) (metadata : Metadata)
    (chunks : List String) : List Doc :=
  ((enumFrom 0 chunks).filter (fun p => minSize ≤ (pyStrip p.2).length)).map
    (fun p =>
      ⟨p.2,
        mdSet (mdSet (mdSet metadata "chunk_index" (.nat p.1))
          "chunking_method" (.str "semantic"))
          "total_chunks" (.nat chunks.length)⟩)

/-- Model of `LegalChunker._semantic_chunk(document)` (chunker.py lines
117-147) with a total encoder: split into sentences; fewer than two
sentences return the whole text unchanged as one chunk (before the encoder
is ever consulted); otherwise encode, group and convert. -/
def semanticChunk (encode : List String → List Emb)
    (simBelow : Emb → List Emb → Bool) (minSize maxSize : Nat)
    (doc : Doc) : List Doc :=
  let sentences := splitIntoSentences doc.page_content
  if sentences.length < 2 then [⟨doc.page_content, doc.metadata⟩]
  else
    chunksOfGroups minSize doc.metadata
      (groupSentencesSemantically simBelow maxSize
        (sentences.zip (encode sentences)))

/-- `_semantic_chunk` with a fallible encoder (`self.model.encode` is the
only statement in its body that can raise): `none` models the raised
exception that `chunk_document` catches. -/
def semanticChunkTry (encode : List String → Option (List Emb))
    (simBelow : Emb → List Emb → Bool) (minSize maxSize : Nat)
    (doc : Doc) : Option (List Doc) :=
  let sentences := splitIntoSentences doc.page_content
  if sentences.length < 2 then some [⟨doc.page_content, doc.metadata⟩]
  else
    match encode sentences with
    | none => none
    | some embs =>
      some (chunksOfGroups minSize doc.metadata
        (groupSentencesSemantically simBelow maxSize (sentences.zip embs)))

/-- Model of `self.fallback_chunker.split_documents([document])`
(chunker.py lines 93/100): LangChain's `RecursiveCharacterTextSplitter`
splits the text by its own algorithm (an external collaborator, abstracted
as `splitText`) and attaches to every piece a copy of the parent document's
metadata — it adds no key of its own. -/
def fallbackSplitDocuments (splitText : String → List String) (doc : Doc) :
    List Doc :=
  (splitText doc.page_content).map (fun s => ⟨s, doc.metadata⟩)

/-- Model of `LegalChunker.chunk_document(document)` (chunker.py lines
81-100): if the model handle is absent use the fallback splitter; otherwise
run `_semantic_chunk` and fall back if it raises. -/
def chunkDocument (splitText : String → List String)
    (model : Option (List String → Option (List Emb)))
    (simBelow : Emb → List Emb → Bool) (minSize maxSize : Nat)
    (doc : Doc) : List Doc :=
  match model with
  | none => fallbackSplitDocuments splitText doc
  | some encode =>
    match semanticChunkTry encode simBelow minSize maxSize doc with
    | some chunks => chunks
    | none => fallbackSplitDocuments splitText doc

/-- Normalized result dictionary returned by every processor:
`raw_content`, `url`, `enhanced_processing`, `metadata` (the spec's
`DocumentRecord`). -/
structure DocRecord where
  raw_content : String
  url : String
  enhanced_processing : Bool
  metadata : Metadata
deriving DecidableEq

/-- Ambient file-system facts a processor consults: existence, a text read
with `errors='ignore'` (fallible), `stat().st_size`, and the
`datetime.now().isoformat()` timestamp. -/
structure FileOps where
  existsFile : String → Bool
  readTextIgnore : String → Except String String
  statSize : String → Nat
  now : String

/-- Model of `_fallback_processing(file_path, reason)` (identical bodies in
archive_processor.py lines 351-381 and email_processor.py lines 365-395):
try the plain text read; on success return a `processing_method="fallback"`
record, on failure an error-content record.  Total by construction. -/
def fallbackProcessing (fo : FileOps) (path reason : String) : DocRecord :=
  match fo.readTextIgnore path with
  | .ok content =>
    { raw_content := content
      url := path
      enhanced_processing := false
      metadata := [("file_type", .str (pathSuffixLower path)),
        ("processing_method", .str "fallback"), ("reason", .str reason),
        ("file_size", .nat (fo.statSize path)),
        ("processed_at", .str fo.now)] }
  | .error e =>
    { raw_content := "Could not process " ++ baseName path ++ ": " ++ reason
      url := path
      enhanced_processing := false
      metadata := [("file_type", .str (pathSuffixLower path)),
        ("processing_method", .str "error"), ("error", .str e),
        ("file_size", .nat (fo.statSize path)),
        ("processed_at", .str fo.now)] }

/-- One archive member as the ZIP/RAR loops see it: name and uncompressed
bytes (`getinfo(...).file_size` is the byte count). -/
structure ArchiveEntry where
  name : String
  data : List Nat
deriving DecidableEq

/-- Per-entry record of `extracted_content`: filename, content string,
size, and the `type` tag. -/
structure ExtractedItem where
  filename : String
  content : String
  size : Nat
  itemType : String
deriving DecidableEq

/-- Model of `file_name.endswith('/')`, the directory test applied to every
archive member name. -/
def endsWithSlash (s : String) : Bool := s.data.getLast? = some '/'

/-- Entry loop of `_process_zip_file` / `_process_rar_file`
(archive_processor.py lines 95-130 and 182-217): skip names ending in `/`;
decode the bytes with `decode('utf-8', errors='ignore')`.  Because that
decode is total, the `except UnicodeDecodeError` branch (lines 119-126 /
206-213) that would record `[Binary file: name]` with type `binary` is
unreachable: every surviving entry is tagged `text`. -/
def extractEntries (entries : List ArchiveEntry) : List ExtractedItem :=
  (entries.filter (fun e => ¬ endsWithSlash e.name)).map
    (fun e => ⟨e.name, decodeUtf8Ignore e.data, e.data.length, "text"⟩)

/-- Fifty dashes, `"-" * 50`. -/
def dashes50 : String := ⟨List.replicate 50 '-'⟩

/-- One `FILE:` section of the formatted archive content
(archive_processor.py lines 142-147). -/
def entrySection (it : ExtractedItem) : String :=
  "\nFILE: " ++ it.filename ++ "\nSize: " ++ toString it.size ++
    " bytes\nType: " ++ it.itemType ++ "\nContent:\n" ++ it.content ++ "\n" ++
    dashes50 ++ "\n"

/-- Concatenate the per-entry sections onto the header. -/
def archiveBody (header : String) (items : List ExtractedItem) : String :=
  items.foldl (fun acc it => acc ++ entrySection it) header

/-- Shared success path of the ZIP/RAR/TAR processors: `headerWord` is
`"ZIP"`, `"RAR"` or `"TAR"`, `ftype` the `file_type` metadata value;
`fileCount` is `len(file_list)` (directories included), `totalSize` the sum
over the entries the loop reached. -/
def archiveResult (headerWord ftype archiveName : String)
    (fileCount totalSize : Nat) (items : List ExtractedItem)
    (statSize : Nat) (now : String) (url : String) : DocRecord :=
  { raw_content :=
      archiveBody
        ("\n" ++ headerWord ++ " ARCHIVE CONTENTS\n===================\nArchive: " ++
          archiveName ++ "\nFiles: " ++ toString fileCount ++
          "\nTotal Size: " ++ toString totalSize ++ " bytes\n\n")
        items
    url := url
    enhanced_processing := true
    metadata := [("file_type", .str ftype),
      ("processing_method", .str "archive_extraction"),
      ("file_count", .nat fileCount), ("total_size", .nat totalSize),
      ("extracted_files", .strList (items.map (·.filename))),
      ("file_size", .nat statSize), ("processed_at", .str now)] }

/-- Success body of `_process_zip_file` (archive_processor.py lines
86-162), given the entry list the `zipfile` library produced. -/
def processZipEntries (fo : FileOps) (path : String)
    (entries : List ArchiveEntry) : DocRecord :=
  let items := extractEntries entries
  archiveResult "ZIP" "zip" (baseName path) entries.length
    ((entries.filter (fun e => ¬ endsWithSlash e.name)).map
      (fun e => e.data.length)).sum
    items (fo.statSize path) fo.now path

/-- `ArchiveProcessor._process_zip_file` (archive_processor.py lines
81-166): unavailable library or a raised open both degrade to
`_fallback_processing`. -/
def processZipFile (zipAvail : Bool)
    (zipOpen : String → Except String (List ArchiveEntry)) (fo : FileOps)
    (path : String) : DocRecord :=
  if ¬ zipAvail then fallbackProcessing fo path "ZIP processing not available"
  else
    match zipOpen path with
    | .ok entries => processZipEntries fo path entries
    | .error e => fallbackProcessing fo path ("ZIP processing failed: " ++ e)

/-- `ArchiveProcessor._process_rar_file` (archive_processor.py lines
168-253); the entry loop is identical to the ZIP one. -/
def processRarFile (rarAvail : Bool)
    (rarOpen : String → Except String (List ArchiveEntry)) (fo : FileOps)
    (path : String) : DocRecord :=
  if ¬ rarAvail then fallbackProcessing fo path "RAR processing not available"
  else
    match rarOpen path with
    | .ok entries =>
      let items := extractEntries entries
      archiveResult "RAR" "rar" (baseName path) entries.length
        ((entries.filter (fun e => ¬ endsWithSlash e.name)).map
          (fun e => e.data.length)).sum
        items (fo.statSize path) fo.now path
    | .error e => fallbackProcessing fo path ("RAR processing failed: " ++ e)

/-- Compression mode chosen by `_process_tar_file` (archive_processor.py
lines 262-267) from the path's final suffix. -/
def tarMode (path : String) : String :=
  if pathSuffix path = ".gz" then "r:gz"
  else if pathSuffix path = ".bz2" then "r:bz2"
  else "r"

/-- One TAR member: `data = none` models a non-regular member for which
`extractfile` yields `None`, making the per-entry `with` statement raise so
the entry is skipped after its size was already added to the total
(archive_processor.py lines 277-313). -/
structure TarEntry where
  name : String
  size : Nat
  data : Option (List Nat)
deriving DecidableEq

/-- `ArchiveProcessor._process_tar_file` (archive_processor.py lines
255-349); availability rides on the ZIP flag because `tarfile` is imported
alongside `zipfile`. -/
def processTarFile (zipAvail : Bool)
    (tarOpen : String → String → Except String (List TarEntry))
    (fo : FileOps) (path : String) : DocRecord :=
  if ¬ zipAvail then fallbackProcessing fo path "TAR processing not available"
  else
    match tarOpen (tarMode path) path with
    | .ok entries =>
      let reached := entries.filter (fun e => ¬ endsWithSlash e.name)
      let items := (reached.filterMap (fun e =>
        e.data.map (fun bs => (⟨e.name, decodeUtf8Ignore bs, e.size, "text"⟩ :
          ExtractedItem))))
      archiveResult "TAR" "tar" (baseName path) entries.length
        (reached.map (fun e => e.size)).sum items (fo.statSize path) fo.now path
    | .error e => fallbackProcessing fo path ("TAR processing failed: " ++ e)

/-- `ArchiveProcessor.process_archive_file` (archive_processor.py lines
55-79): raise `FileNotFoundError` for a missing path, dispatch on
`suffix.lower()`, raise `ValueError` for anything outside
`.zip` / `.rar` / `.tar` / `.tar.gz` / `.tar.bz2` — and since `suffix`
never produces a two-part extension, the `.tar.gz` / `.tar.bz2` tests can
never succeed. -/
def processArchiveFile (fo : FileOps) (zipAvail rarAvail : Bool)
    (zipOpen rarOpen : String → Except String (List ArchiveEntry))
    (tarOpen : String → String → Except String (List TarEntry))
    (path : String) : Except String DocRecord :=
  if ¬ fo.existsFile path then
    .error ("Archive file not found: " ++ path)
  else
    let ext := pathSuffixLower path
    if ext = ".zip" then .ok (processZipFile zipAvail zipOpen fo path)
    else if ext = ".rar" then .ok (processRarFile rarAvail rarOpen fo path)
    else if ext = ".tar" ∨ ext = ".tar.gz" ∨ ext = ".tar.bz2" then
      .ok (processTarFile zipAvail tarOpen fo path)
    else .error ("Unsupported archive format: " ++ ext)

/-- `EmailProcessor._process_msg_file` (email_processor.py lines 97-125):
availability gate, then the fallible rich body (`rich`), any failure
degrading to `_fallback_processing`. -/
def processMsgFile (emailAvail : Bool)
    (rich : String → Except String DocRecord) (fo : FileOps)
    (path : String) : DocRecord :=
  if ¬ emailAvail then
    fallbackProcessing fo path "MSG file processing not available"
  else
    match rich path with
    | .ok r => r
    | .error e => fallbackProcessing fo path ("MSG processing failed: " ++ e)

/-- `EmailProcessor._process_eml_file` (email_processor.py lines 127-190). -/
def processEmlFile (emailAvail : Bool)
    (rich : String → Except String DocRecord) (fo : FileOps)
    (path : String) : DocRecord :=
  if ¬ emailAvail then
    fallbackProcessing fo path "EML file processing not available"
  else
    match rich path with
    | .ok r => r
    | .error e => fallbackProcessing fo path ("EML processing failed: " ++ e)

/-- `EmailProcessor._process_pst_file` (email_processor.py lines 192-235). -/
def processPstFile (pstAvail : Bool)
    (rich : String → Except String DocRecord) (fo : FileOps)
    (path : String) : DocRecord :=
  if ¬ pstAvail then
    fallbackProcessing fo path "PST file processing not available"
  else
    match rich path with
    | .ok r => r
    | .error e => fallbackProcessing fo path ("PST processing failed: " ++ e)

/-- `EmailProcessor.process_email_file` (email_processor.py lines 71-95):
raise `FileNotFoundError` for a missing path, dispatch `.msg` / `.eml` /
`.pst` on `suffix.lower()`, raise `ValueError` otherwise. -/
def processEmailFile (fo : FileOps) (emailAvail pstAvail : Bool)
    (msgRich emlRich pstRich : String → Except String DocRecord)
    (path : String) : Except String DocRecord :=
  if ¬ fo.existsFile path then
    .error ("Email file not found: " ++ path)
  else
    let ext := pathSuffixLower path
    if ext = ".msg" then .ok (processMsgFile emailAvail msgRich fo path)
    else if ext = ".eml" then .ok (processEmlFile emailAvail emlRich fo path)
    else if ext = ".pst" then .ok (processPstFile pstAvail pstRich fo path)
    else .error ("Unsupported email format: " ++ ext)

/-- Error slot built by `process_email_files_batch` for an item whose task
raised (email_processor.py lines 408-419). -/
def emailBatchErrorRecord (path e : String) : DocRecord :=
  { raw_content := "Error processing " ++ path ++ ": " ++ e
    url := path
    enhanced_processing := false
    metadata := [("file_type", .str (pathSuffixLower path)),
      ("processing_method", .str "error"), ("error", .str e)] }

/-- `EmailProcessor.process_email_files_batch` (email_processor.py lines
397-423): `asyncio.gather(..., return_exceptions=True)` yields one slot per
input in input order regardless of completion order; slots that hold an
exception are replaced by `emailBatchErrorRecord`.  The single-item
operation is `op`, with `Except.error` standing for a raised exception. -/
def processEmailFilesBatch (op : String → Except String DocRecord)
    (paths : List String) : List DocRecord :=
  paths.map (fun p =>
    match op p with
    | .ok r => r
    | .error e => emailBatchErrorRecord p e)

/-- `LegalDocumentProcessor.process_documents_batch`
(document_processor.py lines 391-394): it returns the
`asyncio.gather(..., return_exceptions=True)` list unchanged, so a slot
whose task raised holds the raw exception object itself. -/
def processDocumentsBatch (op : String → Except String DocRecord)
    (paths : List String) : List (Except String DocRecord) :=
  paths.map op

/-! Helper lemmas about the embedded definitions. -/

theorem mdGet_mdSet_same (m : Metadata) (k : String) (v : MValue) :
    mdGet (mdSet m k v) k = some v := by
  induction m with
  | nil => simp [mdSet, mdGet]
  | cons hd tl ih =>
    obtain ⟨k', v'⟩ := hd
    by_cases h : k' = k
    · simp [mdSet, h, mdGet]
    · simp [mdSet, h, mdGet, ih]

theorem mdGet_mdSet_ne (m : Metadata) (k k' : String) (v : MValue)
    (h : k' ≠ k) : mdGet (mdSet m k v) k' = mdGet m k' := by
  have h' : ¬ (k = k') := fun he => h he.symm
  induction m with
  | nil => simp [mdSet, mdGet, h']
  | cons hd tl ih =>
    obtain ⟨k₀, v₀⟩ := hd
    by_cases h0 : k₀ = k
    · subst h0
      simp [mdSet, mdGet, h']
    · by_cases h1 : k₀ = k'
      · simp [mdSet, h0, mdGet, h1, h]
      · simp [mdSet, h0, mdGet, h1, ih]

theorem strAppend_assoc (a b c : String) : a ++ b ++ c = a ++ (b ++ c) := by
  apply String.ext
  simp [String.data_append, List.append_assoc]

theorem joinSpace_append_one (l : List String) (s : String) (h : l ≠ []) :
    joinSpace (l ++ [s]) = joinSpace l ++ " " ++ s := by
  induction l with
  | nil => exact absurd rfl h
  | cons a t ih =>
    cases t with
    | nil => simp [joinSpace]
    | cons b t2 =>
      have hstep : joinSpace (a :: b :: t2) = a ++ " " ++ joinSpace (b :: t2) := rfl
      have hstep2 : joinSpace ((a :: b :: t2) ++ [s]) =
          a ++ " " ++ joinSpace ((b :: t2) ++ [s]) := rfl
      rw [hstep2, ih (by simp), hstep, strAppend_assoc (a ++ " "),
        strAppend_assoc (a ++ " ")]

theorem joinSpace_length_append_one (l : List String) (s : String)
    (h : l ≠ []) :
    (joinSpace (l ++ [s])).length = (joinSpace l).length + 1 + s.length := by
  rw [joinSpace_append_one l s h, String.length_append, String.length_append]
  rfl

theorem joinSpace_chars (l : List String) (c : Char)
    (hc : c ∈ (joinSpace l).data) : c = ' ' ∨ ∃ s ∈ l, c ∈ s.data := by
  induction l with
  | nil => simp [joinSpace] at hc
  | cons a t ih =>
    cases t with
    | nil => exact Or.inr ⟨a, by simp, hc⟩
    | cons b t2 =>
      have hstep : joinSpace (a :: b :: t2) = a ++ " " ++ joinSpace (b :: t2) := rfl
      rw [hstep] at hc
      simp only [String.data_append, List.mem_append] at hc
      rcases hc with (hca | hsp) | hrest
      · exact Or.inr ⟨a, by simp, hca⟩
      · left
        simpa using hsp
      · rcases ih hrest with h' | ⟨s', hs', hcs'⟩
        · exact Or.inl h'
        · exact Or.inr ⟨s', by simp [hs'], hcs'⟩

theorem splitRunChars_ne_nil (l : List Char) : splitRunChars l ≠ [] := by
  cases l with
  | nil => simp [splitRunChars]
  | cons c cs =>
    by_cases h : isSentTerm c = true
    · simp [splitRunChars, h]
    · simp [splitRunChars, h]

theorem splitRunChars_no_term (l : List Char) :
    ∀ p ∈ splitRunChars l, ∀ c ∈ p, isSentTerm c = false := by
  induction l with
  | nil =>
    intro p hp c hc
    simp [splitRunChars] at hp
    subst hp
    simp at hc
  | cons a cs ih =>
    intro p hp c hc
    by_cases ha : isSentTerm a = true
    · simp [splitRunChars, ha] at hp
      rcases hp with rfl | hp
      · simp at hc
      · exact ih p hp c hc
    · obtain ⟨hd, tl, hr⟩ : ∃ hd tl, splitRunChars cs = hd :: tl := by
        cases h : splitRunChars cs with
        | nil => exact absurd h (splitRunChars_ne_nil cs)
        | cons x xs => exact ⟨x, xs, rfl⟩
      simp [splitRunChars, ha, hr] at hp
      rcases hp with rfl | hp
      · rcases List.mem_cons.1 hc with rfl | hc'
        · simpa using ha
        · exact ih hd (by simp [hr]) c hc'
      · exact ih p (by simp [hr, hp]) c hc

theorem trimChars_mem {c : Char} {l : List Char} (h : c ∈ trimChars l) :
    c ∈ l := by
  unfold trimChars at h
  have h1 := List.mem_reverse.1 h
  have h2 := (List.dropWhile_sublist isPySpace).mem h1
  have h3 := List.mem_reverse.1 h2
  exact (List.dropWhile_sublist isPySpace).mem h3

theorem splitIntoSentences_spec (text : String) :
    ∀ s ∈ splitIntoSentences text,
      s ≠ "" ∧ ∀ c ∈ s.data, isSentTerm c = false := by
  intro s hs
  rcases List.mem_map.1 hs with ⟨l, hl, rfl⟩
  rcases List.mem_filter.1 hl with ⟨hl2, hne⟩
  rcases List.mem_map.1 hl2 with ⟨p, hp, rfl⟩
  refine ⟨?_, ?_⟩
  · intro he
    have : trimChars p = [] := congrArg String.data he
    exact (of_decide_eq_true hne) this
  · intro c hc
    exact splitRunChars_no_term text.data p hp c (trimChars_mem hc)

theorem groupGo_out (simB : Emb → List Emb → Bool) (maxS : Nat) :
    ∀ (pairs : List (String × Emb)) (cur : List String) (curE : List Emb),
      (cur = [] ∨ ∃ l s, cur = l ++ [s] ∧
        (l = [] ∨ (joinSpace l).length ≤ maxS)) →
      ∀ c ∈ groupGo simB maxS cur curE pairs,
        ∃ l s, c = joinSpace (l ++ [s]) ∧
          (∀ x ∈ l ++ [s], x ∈ cur ∨ x ∈ pairs.map Prod.fst) ∧
          (l = [] ∨ (joinSpace l).length ≤ maxS) := by
  intro pairs
  induction pairs with
  | nil =>
    intro cur curE hinv c hc
    by_cases hcur : cur.isEmpty
    · simp [groupGo, hcur] at hc
    · simp [groupGo, hcur] at hc
      subst hc
      rcases hinv with rfl | ⟨l, s, rfl, hb⟩
      · simp at hcur
      · exact ⟨l, s, rfl, fun x hx => Or.inl hx, hb⟩
  | cons hd rest ih =>
    obtain ⟨snt, e⟩ := hd
    intro cur curE hinv c hc
    by_cases hcur : cur.isEmpty
    · simp only [groupGo, hcur, if_true] at hc
      rcases ih [snt] [e] (Or.inr ⟨[], snt, rfl, Or.inl rfl⟩) c hc with
        ⟨l, s, hcs, hmem, hb⟩
      refine ⟨l, s, hcs, ?_, hb⟩
      intro x hx
      rcases hmem x hx with hx' | hx'
      · simp at hx'
        subst hx'
        exact Or.inr (by simp)
      · exact Or.inr (by simp [hx'])
    · by_cases hnew : simB e curE = true ∨ maxS < (joinSpace cur).length
      · simp only [groupGo, hcur, if_false, Bool.false_eq_true, if_pos hnew,
          List.mem_cons] at hc
        rcases hc with rfl | hc
        · rcases hinv with rfl | ⟨l, s, rfl, hb⟩
          · simp at hcur
          · exact ⟨l, s, rfl, fun x hx => Or.inl hx, hb⟩
        · rcases ih [snt] [e] (Or.inr ⟨[], snt, rfl, Or.inl rfl⟩) c hc with
            ⟨l, s, hcs, hmem, hb⟩
          refine ⟨l, s, hcs, ?_, hb⟩
          intro x hx
          rcases hmem x hx with hx' | hx'
          · simp at hx'
            subst hx'
            exact Or.inr (by simp)
          · exact Or.inr (by simp [hx'])
      · simp only [groupGo, hcur, if_false, Bool.false_eq_true,
          if_neg hnew] at hc
        have hle : (joinSpace cur).length ≤ maxS := by
          rcases Nat.lt_or_ge maxS (joinSpace cur).length with h' | h'
          · exact absurd (Or.inr h') hnew
          · exact h'
        rcases ih (cur ++ [snt]) (curE ++ [e])
            (Or.inr ⟨cur, snt, rfl, Or.inr hle⟩) c hc with ⟨l, s, hcs, hmem, hb⟩
        refine ⟨l, s, hcs, ?_, hb⟩
        intro x hx
        rcases hmem x hx with hx' | hx'
        · rcases List.mem_append.1 hx' with hx'' | hx''
          · exact Or.inl hx''
          · simp at hx''
            subst hx''
            exact Or.inr (by simp)
        · exact Or.inr (by simp [hx'])

theorem enumFrom_snd_mem : ∀ {α : Type} {l : List α} {n : Nat}
    (p : Nat × α), p ∈ enumFrom n l → p.2 ∈ l := by
  intro α l
  induction l with
  | nil => intro n p hp; simp [enumFrom] at hp
  | cons x xs ih =>
    intro n p hp
    simp only [enumFrom, List.mem_cons] at hp
    rcases hp with rfl | hp
    · simp
    · exact List.mem_cons_of_mem x (ih p hp)

theorem enumFrom_get : ∀ {α : Type} {l : List α} {n : Nat} (p : Nat × α),
    p ∈ enumFrom n l → n ≤ p.1 ∧ l.get? (p.1 - n) = some p.2 := by
  intro α l
  induction l with
  | nil => intro n p hp; simp [enumFrom] at hp
  | cons x xs ih =>
    intro n p hp
    simp only [enumFrom, List.mem_cons] at hp
    rcases hp with rfl | hp
    · simp
    · rcases ih p hp with ⟨hle, hget⟩
      constructor
      · omega
      · have h1 : p.1 - n = (p.1 - (n + 1)) + 1 := by omega
        rw [h1, List.get?_cons_succ]
        exact hget

theorem chunksOfGroups_mem {minSize : Nat} {metadata : Metadata}
    {chunks : List String} {ck : Doc} (h : ck ∈ chunksOfGroups minSize metadata chunks) :
    ∃ i, chunks.get? i = some ck.page_content ∧
      minSize ≤ (pyStrip ck.page_content).length ∧
      ck.metadata = mdSet (mdSet (mdSet metadata "chunk_index" (.nat i))
        "chunking_method" (.str "semantic")) "total_chunks" (.nat chunks.length) := by
  rcases List.mem_map.1 h with ⟨p, hp, rfl⟩
  rcases List.mem_filter.1 hp with ⟨hpe, hplen⟩
  rcases enumFrom_get p hpe with ⟨-, hget⟩
  exact ⟨p.1, by simpa using hget, of_decide_eq_true hplen, rfl⟩

theorem semanticChunk_eq_of_two_le (encode : List String → List Emb)
    (simB : Emb → List Emb → Bool) (minSize maxSize : Nat) (doc : Doc)
    (h : 2 ≤ (splitIntoSentences doc.page_content).length) :
    semanticChunk encode simB minSize maxSize doc =
      chunksOfGroups minSize doc.metadata
        (groupSentencesSemantically simB maxSize
          ((splitIntoSentences doc.page_content).zip
            (encode (splitIntoSentences doc.page_content)))) := by
  have hlt : ¬ ((splitIntoSentences doc.page_content).length < 2) := by omega
  simp [semanticChunk, hlt]

/-! Concrete fixtures used by the claim witnesses and counterexamples. -/

/-- File-system stub where every path exists and reads as empty text. -/
def fsAll : FileOps := ⟨fun _ => true, fun _ => .ok "", fun _ => 0, ""⟩

/-- File-system stub where no path exists. -/
def fsNone : FileOps := ⟨fun _ => false, fun _ => .ok "", fun _ => 0, ""⟩

/-- Trivial rich extraction handler that always succeeds. -/
def richOk : String → Except String DocRecord := fun p => .ok ⟨"m", p, true, []⟩

/-- Archive opener producing an empty entry list. -/
def zipOpenEmpty : String → Except String (List ArchiveEntry) := fun _ => .ok []

/-- TAR opener producing an empty entry list. -/
def tarOpenEmpty : String → String → Except String (List TarEntry) := fun _ _ => .ok []

/-! Claim theorems. -/

/-- C8: semantic chunking is idempotent on an already-minimal chunk — a
document whose text splits into exactly one sentence (and is shorter than
the configured maximum) comes back as exactly one chunk carrying the
unchanged text, and re-chunking any of the returned chunks reproduces them
unchanged. -/
theorem c8_idempotent_single_sentence (encode : List String → List Emb)
    (simB : Emb → List Emb → Bool) (minSize maxSize : Nat) (doc : Doc)
    (h1 : (splitIntoSentences doc.page_content).length = 1)
    (h2 : doc.page_content.length < maxSize) :
    semanticChunk encode simB minSize maxSize doc =
      [⟨doc.page_content, doc.metadata⟩] ∧
    ∀ ck ∈ semanticChunk encode simB minSize maxSize doc,
      semanticChunk encode simB minSize maxSize ck = [ck] := by
  have hlt : (splitIntoSentences doc.page_content).length < 2 := by omega
  have hone : semanticChunk encode simB minSize maxSize doc =
      [⟨doc.page_content, doc.metadata⟩] := by
    simp [semanticChunk, hlt]
  refine ⟨hone, ?_⟩
  intro ck hck
  rw [hone] at hck
  simp at hck
  subst hck
  exact hone

/-- Witness for C8 at the one-sentence document `"Hello world"`. -/
theorem c8_idempotent_single_sentence_witness :
    (splitIntoSentences "Hello world").length = 1 ∧
    ("Hello world" : String).length < 1000 ∧
    semanticChunk (fun ss => ss.map (fun _ => ([1] : Emb))) (simBelowCos 3 4)
      200 1000 ⟨"Hello world", []⟩ = [⟨"Hello world", []⟩] :=
  ⟨by decide, by decide,
    (c8_idempotent_single_sentence (fun ss => ss.map (fun _ => ([1] : Emb)))
      (simBelowCos 3 4) 200 1000 ⟨"Hello world", []⟩ (by decide) (by decide)).1⟩

/-- C9: the minimum-chunk-size filter applies only on the multi-sentence
path — a document with fewer than two sentences is returned whole as one
chunk whatever `min_chunk_size` is, while a two-sentence document whose
grouped chunks all strip below `min_chunk_size` yields no chunks at all. -/
theorem c9_min_filter_bypass :
    (∀ (encode : List String → List Emb) (simB : Emb → List Emb → Bool)
        (minSize maxSize : Nat) (doc : Doc),
      (splitIntoSentences doc.page_content).length < 2 →
      semanticChunk encode simB minSize maxSize doc =
        [⟨doc.page_content, doc.metadata⟩]) ∧
    (2 ≤ (splitIntoSentences "Hi there. Yo.").length ∧
      semanticChunk (fun ss => ss.map (fun _ => ([1] : Emb)))
        (simBelowCos 3 4) 200 1000 ⟨"Hi there. Yo.", []⟩ = []) := by
  refine ⟨?_, by decide, by decide⟩
  intro encode simB minSize maxSize doc h
  simp [semanticChunk, h]

/-- Witness for C9: the five-character document `"Hello"` is far below the
default `min_chunk_size = 200` yet survives as a whole chunk. -/
theorem c9_min_filter_bypass_witness :
    (splitIntoSentences "Hello").length < 2 ∧
    ("Hello" : String).length < 200 ∧
    semanticChunk (fun ss => ss.map (fun _ => ([1] : Emb))) (simBelowCos 3 4)
      200 1000 ⟨"Hello", []⟩ = [⟨"Hello", []⟩] :=
  ⟨by decide, by decide,
    c9_min_filter_bypass.1 (fun ss => ss.map (fun _ => ([1] : Emb)))
      (simBelowCos 3 4) 200 1000 ⟨"Hello", []⟩ (by decide)⟩

/-- C10: the sentence splitter consumes the terminator characters — every
sentence it produces is non-empty and free of `.`, `!` and `?` — and hence
on the multi-sentence semantic path no returned chunk's content contains
any of those characters. -/
theorem c10_no_terminator_chars :
    (∀ (text s : String), s ∈ splitIntoSentences text →
      s ≠ "" ∧ ∀ c ∈ s.data, isSentTerm c = false) ∧
    (∀ (encode : List String → List Emb) (simB : Emb → List Emb → Bool)
        (minSize maxSize : Nat) (doc : Doc),
      2 ≤ (splitIntoSentences doc.page_content).length →
      ∀ ck ∈ semanticChunk encode simB minSize maxSize doc,
        ∀ c ∈ ck.page_content.data, isSentTerm c = false) := by
  constructor
  · exact splitIntoSentences_spec
  · intro encode simB minSize maxSize doc h ck hck c hc
    rw [semanticChunk_eq_of_two_le encode simB minSize maxSize doc h] at hck
    rcases chunksOfGroups_mem hck with ⟨i, hget, -, -⟩
    have hmem : ck.page_content ∈ groupSentencesSemantically simB maxSize
        ((splitIntoSentences doc.page_content).zip
          (encode (splitIntoSentences doc.page_content))) :=
      List.get?_mem hget
    rcases groupGo_out simB maxSize _ [] [] (Or.inl rfl) _ hmem with
      ⟨l, s, hcs, hmemx, -⟩
    rw [hcs] at hc
    rcases joinSpace_chars _ c hc with rfl | ⟨s', hs', hcs'⟩
    · rfl
    · have hsent : s' ∈ splitIntoSentences doc.page_content := by
        rcases hmemx s' hs' with h' | h'
        · simp at h'
        · rcases List.mem_map.1 h' with ⟨⟨a, b⟩, hab, rfl⟩
          exact (List.of_mem_zip hab).1
      exact (splitIntoSentences_spec _ _ hsent).2 c hcs'

/-- Witness for C10 on the two-sentence document `"abcd. efgh."`. -/
theorem c10_no_terminator_chars_witness :
    2 ≤ (splitIntoSentences "abcd. efgh.").length ∧
    ∀ ck ∈ semanticChunk (fun ss => ss.map (fun _ => ([1] : Emb)))
        (simBelowCos 3 4) 1 1000 ⟨"abcd. efgh.", []⟩,
      ∀ c ∈ ck.page_content.data, isSentTerm c = false :=
  ⟨by decide,
    c10_no_terminator_chars.2 (fun ss => ss.map (fun _ => ([1] : Emb)))
      (simBelowCos 3 4) 1 1000 ⟨"abcd. efgh.", []⟩ (by decide)⟩

/-- C4 counterexample: with `max_chunk_size = 10` and three four-character
sentences whose embeddings are identical (cosine 1 ≥ 0.75, so never below
threshold), the loop never closes the chunk — the running chunk's joined
length is checked before the append and `"abcd efgh"` has length 9 ≤ 10 —
and the single returned chunk `"abcd efgh ijkl"` has length 14 > 10 even
though every individual sentence has length 4 ≤ 10. -/
theorem c4_counterexample :
    groupSentencesSemantically (simBelowCos 3 4) 10
        [("abcd", [1]), ("efgh", [1]), ("ijkl", [1])] = ["abcd efgh ijkl"] ∧
    ("abcd efgh ijkl" : String).length = 14 ∧
    (splitIntoSentences "abcd. efgh. ijkl." = ["abcd", "efgh", "ijkl"]) ∧
    ((splitIntoSentences "abcd. efgh. ijkl.").all
      (fun s => decide (s.length ≤ 10))) = true ∧
    (semanticChunk (fun ss => ss.map (fun _ => ([1] : Emb))) (simBelowCos 3 4)
        1 10 ⟨"abcd. efgh. ijkl.", []⟩).map (fun d => d.page_content) =
      ["abcd efgh ijkl"] := by
  exact ⟨by decide, by decide, by decide, by decide, by decide⟩

/-- C4 amended: every chunk the grouping loop emits is a space-join of
input sentences, and because the length check
`len(" ".join(current_chunk)) > max_chunk_size` inspects the running chunk
before the new sentence is appended, a chunk with at least two sentences
is bounded by `max_chunk_size + 1 + (length of its last sentence)` rather
than by `max_chunk_size` itself (single-sentence chunks are unbounded). -/
theorem c4_chunk_bound_amended (simB : Emb → List Emb → Bool) (maxS : Nat)
    (pairs : List (String × Emb)) (c : String)
    (hc : c ∈ groupSentencesSemantically simB maxS pairs) :
    ∃ l s, c = joinSpace (l ++ [s]) ∧
      (∀ x ∈ l ++ [s], x ∈ pairs.map Prod.fst) ∧
      (l = [] ∨ c.length ≤ maxS + 1 + s.length) := by
  rcases groupGo_out simB maxS pairs [] [] (Or.inl rfl) c hc with
    ⟨l, s, hcs, hmem, hb⟩
  refine ⟨l, s, hcs, ?_, ?_⟩
  · intro x hx
    rcases hmem x hx with h' | h'
    · simp at h'
    · exact h'
  · cases l with
    | nil => exact Or.inl rfl
    | cons a t =>
      rcases hb with hb | hb
      · simp at hb
      · right
        rw [hcs, joinSpace_length_append_one _ _ (by simp)]
        omega

/-- Witness for C4 amended at a two-sentence grouping. -/
theorem c4_chunk_bound_amended_witness :
    ("ab cd" : String) ∈ groupSentencesSemantically (simBelowCos 3 4) 100
      [("ab", [1]), ("cd", [1])] ∧
    ∃ l s, ("ab cd" : String) = joinSpace (l ++ [s]) ∧
      (∀ x ∈ l ++ [s],
        x ∈ ([("ab", ([1] : Emb)), ("cd", [1])]).map Prod.fst) ∧
      (l = [] ∨ ("ab cd" : String).length ≤ 100 + 1 + s.length) :=
  ⟨by decide,
    c4_chunk_bound_amended (simBelowCos 3 4) 100 [("ab", [1]), ("cd", [1])]
      "ab cd" (by decide)⟩

/-- C5 counterexample: on `"aaaa. bb. cccc."` with orthogonal-then-repeated
embeddings (every similarity below 0.75, so one chunk per sentence) and
`min_chunk_size = 3`, the middle chunk `"bb"` is dropped — the two returned
chunks carry `chunk_index` 0 and 2 (not the consecutive range 0..1),
`total_chunks = 3` (the pre-filter count, not the 2 actually returned), and
no `similarity_threshold` key at all. -/
theorem c5_counterexample :
    (semanticChunk (fun ss => [[1, 0], [0, 1], [1, 0]].take ss.length)
        (simBelowCos 3 4) 3 1000
        ⟨"aaaa. bb. cccc.", [("src", .str "p")]⟩).map
      (fun d => d.page_content) = ["aaaa", "cccc"] ∧
    (semanticChunk (fun ss => [[1, 0], [0, 1], [1, 0]].take ss.length)
        (simBelowCos 3 4) 3 1000
        ⟨"aaaa. bb. cccc.", [("src", .str "p")]⟩).map
      (fun d => mdGet d.metadata "chunk_index") =
        [some (.nat 0), some (.nat 2)] ∧
    (semanticChunk (fun ss => [[1, 0], [0, 1], [1, 0]].take ss.length)
        (simBelowCos 3 4) 3 1000
        ⟨"aaaa. bb. cccc.", [("src", .str "p")]⟩).map
      (fun d => mdGet d.metadata "total_chunks") =
        [some (.nat 3), some (.nat 3)] ∧
    (semanticChunk (fun ss => [[1, 0], [0, 1], [1, 0]].take ss.length)
        (simBelowCos 3 4) 3 1000
        ⟨"aaaa. bb. cccc.", [("src", .str "p")]⟩).map
      (fun d => mdGet d.metadata "similarity_threshold") = [none, none] := by
  exact ⟨by decide, by decide, by decide, by decide⟩

/-- C5 amended: on the multi-sentence semantic path every returned chunk
carries `chunking_method = "semantic"`, `total_chunks` equal to the
pre-filter chunk count, a `chunk_index` equal to the chunk's position in
the pre-filter chunk list (so indices can skip values once the minimum-size
filter drops a chunk), a stripped length of at least `min_chunk_size`, and
every parent metadata key other than the three updated ones unchanged; no
similarity-threshold key is attached (that happens only in the separate
`_semantic_chunk_original` variant, which tags `"semantic_original"`). -/
theorem c5_metadata_amended (encode : List String → List Emb)
    (simB : Emb → List Emb → Bool) (minSize maxSize : Nat) (doc : Doc)
    (h : 2 ≤ (splitIntoSentences doc.page_content).length) :
    ∀ ck ∈ semanticChunk encode simB minSize maxSize doc,
      mdGet ck.metadata "chunking_method" = some (.str "semantic") ∧
      mdGet ck.metadata "total_chunks" =
        some (.nat (groupSentencesSemantically simB maxSize
          ((splitIntoSentences doc.page_content).zip
            (encode (splitIntoSentences doc.page_content)))).length) ∧
      (∃ i, mdGet ck.metadata "chunk_index" = some (.nat i) ∧
        (groupSentencesSemantically simB maxSize
          ((splitIntoSentences doc.page_content).zip
            (encode (splitIntoSentences doc.page_content)))).get? i =
          some ck.page_content) ∧
      minSize ≤ (pyStrip ck.page_content).length ∧
      mdGet ck.metadata "similarity_threshold" =
        mdGet doc.metadata "similarity_threshold" ∧
      (∀ k, k ≠ "chunk_index" → k ≠ "chunking_method" → k ≠ "total_chunks" →
        mdGet ck.metadata k = mdGet doc.metadata k) := by
  intro ck hck
  rw [semanticChunk_eq_of_two_le encode simB minSize maxSize doc h] at hck
  rcases chunksOfGroups_mem hck with ⟨i, hget, hlen, hmd⟩
  refine ⟨?_, ?_, ⟨i, ?_, hget⟩, hlen, ?_, ?_⟩
  · rw [hmd, mdGet_mdSet_ne _ _ _ _ (by decide), mdGet_mdSet_same]
  · rw [hmd, mdGet_mdSet_same]
  · rw [hmd, mdGet_mdSet_ne _ _ _ _ (by decide),
      mdGet_mdSet_ne _ _ _ _ (by decide), mdGet_mdSet_same]
  · rw [hmd, mdGet_mdSet_ne _ _ _ _ (by decide),
      mdGet_mdSet_ne _ _ _ _ (by decide), mdGet_mdSet_ne _ _ _ _ (by decide)]
  · intro k hk1 hk2 hk3
    rw [hmd, mdGet_mdSet_ne _ _ _ _ hk3, mdGet_mdSet_ne _ _ _ _ hk2,
      mdGet_mdSet_ne _ _ _ _ hk1]

/-- Witness for C5 amended at the dropped-middle-chunk example. -/
theorem c5_metadata_amended_witness :
    2 ≤ (splitIntoSentences "aaaa. bb. cccc.").length ∧
    ∀ ck ∈ semanticChunk (fun ss => [[1, 0], [0, 1], [1, 0]].take ss.length)
        (simBelowCos 3 4) 3 1000 ⟨"aaaa. bb. cccc.", [("src", .str "p")]⟩,
      mdGet ck.metadata "chunking_method" = some (.str "semantic") :=
  ⟨by decide, fun ck hck =>
    (c5_metadata_amended (fun ss => [[1, 0], [0, 1], [1, 0]].take ss.length)
      (simBelowCos 3 4) 3 1000 ⟨"aaaa. bb. cccc.", [("src", .str "p")]⟩
      (by decide) ck hck).1⟩

/-- C6 counterexample: with the model handle absent (and likewise when the
encoder raises on a two-sentence document) `chunk_document` does fall back,
but the fallback chunks carry only the parent metadata — there is no
`chunking_method` key, let alone the value `"fixed-window"` the claim
requires. -/
theorem c6_counterexample :
    (chunkDocument (fun t => [t]) none (simBelowCos 3 4) 200 1000
        ⟨"some text. more text.", []⟩).map
      (fun ck => mdGet ck.metadata "chunking_method") = [none] ∧
    (chunkDocument (fun t => [t]) (some (fun _ => none)) (simBelowCos 3 4)
        200 1000 ⟨"some text. more text.", []⟩).map
      (fun ck => mdGet ck.metadata "chunking_method") = [none] ∧
    chunkDocument (fun t => [t]) none (simBelowCos 3 4) 200 1000
        ⟨"some text. more text.", []⟩ = [⟨"some text. more text.", []⟩] := by
  exact ⟨by decide, by decide, by decide⟩

/-- C6 amended: the fixed-window fallback (the generic recursive character
splitter) is invoked whenever the model handle is absent, and on the
multi-sentence path whenever the encoder raises; its chunks are the
splitter's pieces each carrying exactly the parent document's metadata —
no `chunking_method` tag is written anywhere on the fallback path. -/
theorem c6_fallback_amended (splitText : String → List String)
    (simB : Emb → List Emb → Bool) (minSize maxSize : Nat) (doc : Doc) :
    chunkDocument splitText none simB minSize maxSize doc =
      (splitText doc.page_content).map (fun s => ⟨s, doc.metadata⟩) ∧
    (∀ ck ∈ chunkDocument splitText none simB minSize maxSize doc,
      ck.metadata = doc.metadata) ∧
    (∀ enc : List String → Option (List Emb),
      enc (splitIntoSentences doc.page_content) = none →
      2 ≤ (splitIntoSentences doc.page_content).length →
      chunkDocument splitText (some enc) simB minSize maxSize doc =
        (splitText doc.page_content).map (fun s => ⟨s, doc.metadata⟩)) := by
  refine ⟨rfl, ?_, ?_⟩
  · intro ck hck
    rcases List.mem_map.1 hck with ⟨s, hs, rfl⟩
    rfl
  · intro enc henc h2
    have hlt : ¬ ((splitIntoSentences doc.page_content).length < 2) := by omega
    simp [chunkDocument, semanticChunkTry, hlt, henc, fallbackSplitDocuments]

/-- Witness for C6 amended: a raising encoder on a two-sentence document
lands in the fallback with untouched metadata. -/
theorem c6_fallback_amended_witness :
    2 ≤ (splitIntoSentences "some text. more text.").length ∧
    chunkDocument (fun t => [t]) (some (fun _ => none)) (simBelowCos 3 4)
        200 1000 ⟨"some text. more text.", [("k", .str "v")]⟩ =
      ((fun (t : String) => [t]) "some text. more text.").map
        (fun s => ⟨s, ([("k", .str "v")] : Metadata)⟩) :=
  ⟨by decide,
    (c6_fallback_amended (fun t => [t]) (simBelowCos 3 4) 200 1000
      ⟨"some text. more text.", [("k", .str "v")]⟩).2.2
      (fun _ => none) rfl (by decide)⟩

/-- C2 counterexample: `process_documents_batch` returns the
`asyncio.gather(..., return_exceptions=True)` list unchanged, so the slot
of an input whose operation raised holds the raw exception itself —
unlike `process_email_files_batch`, which substitutes an error record for
the same failing input. -/
theorem c2_counterexample :
    processDocumentsBatch
        (fun p => if p = "bad.pdf" then Except.error "boom"
          else Except.ok ⟨"ok", p, true, []⟩)
        ["good.txt", "bad.pdf"] =
      [Except.ok ⟨"ok", "good.txt", true, []⟩, Except.error "boom"] ∧
    processEmailFilesBatch
        (fun p => if p = "bad.pdf" then Except.error "boom"
          else Except.ok ⟨"ok", p, true, []⟩)
        ["good.txt", "bad.pdf"] =
      [⟨"ok", "good.txt", true, []⟩, emailBatchErrorRecord "bad.pdf" "boom"] :=
  ⟨rfl, rfl⟩

/-- C2 amended: both batch operations return exactly one slot per input in
input order and never raise; `process_email_files_batch` replaces a raised
item by an error record embedding the exception message and the item's
locator, while `process_documents_batch` leaves the raw exception object in
the slot. -/
theorem c2_batch_amended (op : String → Except String DocRecord)
    (paths : List String) :
    (processEmailFilesBatch op paths).length = paths.length ∧
    (processDocumentsBatch op paths).length = paths.length ∧
    ∀ (i : Nat) (p : String), paths.get? i = some p →
      (processEmailFilesBatch op paths).get? i =
        some (match op p with
          | .ok r => r
          | .error e => emailBatchErrorRecord p e) ∧
      (processDocumentsBatch op paths).get? i = some (op p) := by
  refine ⟨by simp [processEmailFilesBatch], by simp [processDocumentsBatch], ?_⟩
  intro i p hp
  constructor
  · show (paths.map _).get? i = _
    rw [List.get?_map, hp]
    rfl
  · show (paths.map _).get? i = _
    rw [List.get?_map, hp]
    rfl

/-- Witness for C2 amended at a two-element batch whose second item raises. -/
theorem c2_batch_amended_witness :
    (["a.eml", "missing.eml"].get? 1 = some "missing.eml") ∧
    ((processEmailFilesBatch
        (fun p => if p = "missing.eml" then Except.error "File not found"
          else Except.ok ⟨"t", p, true, []⟩) ["a.eml", "missing.eml"]).get? 1 =
      some (match (fun p => if p = "missing.eml" then Except.error "File not found"
          else Except.ok (⟨"t", p, true, []⟩ : DocRecord)) "missing.eml" with
        | .ok r => r
        | .error e => emailBatchErrorRecord "missing.eml" e) ∧
    (processDocumentsBatch
        (fun p => if p = "missing.eml" then Except.error "File not found"
          else Except.ok ⟨"t", p, true, []⟩) ["a.eml", "missing.eml"]).get? 1 =
      some ((fun p => if p = "missing.eml" then Except.error "File not found"
          else Except.ok (⟨"t", p, true, []⟩ : DocRecord)) "missing.eml")) :=
  ⟨rfl,
    (c2_batch_amended
      (fun p => if p = "missing.eml" then Except.error "File not found"
        else Except.ok ⟨"t", p, true, []⟩)
      ["a.eml", "missing.eml"]).2.2 1 "missing.eml" rfl⟩

/-- C3 counterexample: the public single-item operations raise rather than
return a record — `FileNotFoundError` for a missing path (email and
archive alike) and `ValueError` for an extension the processor does not
handle. -/
theorem c3_counterexample :
    processEmailFile fsNone true true richOk richOk richOk "gone.eml" =
      .error "Email file not found: gone.eml" ∧
    processArchiveFile fsNone true true zipOpenEmpty zipOpenEmpty
        tarOpenEmpty "gone.zip" =
      .error "Archive file not found: gone.zip" ∧
    processEmailFile fsAll true true richOk richOk richOk "notes.docx" =
      .error "Unsupported email format: .docx" :=
  ⟨rfl, rfl, rfl⟩

/-- C3 amended: for an existing file whose lowercased final suffix the
processor handles (`.msg`/`.eml`/`.pst` for email, `.zip`/`.rar`/`.tar`
for archive — `.tar.gz`/`.tar.bz2` never match because `Path.suffix` keeps
only the last extension) the public operation always returns a record, for
any behaviour of the rich extraction bodies and of the fallback read, and
every fallback record reports `enhanced_processing = false`; but a missing
path raises `FileNotFoundError` and an unhandled extension raises
`ValueError`, which the batch wrappers (not the single-item operations)
convert into error records. -/
theorem c3_public_ops_amended (fo : FileOps)
    (emailAvail pstAvail zipAvail rarAvail : Bool)
    (msgRich emlRich pstRich : String → Except String DocRecord)
    (zipOpen rarOpen : String → Except String (List ArchiveEntry))
    (tarOpen : String → String → Except String (List TarEntry))
    (path : String) :
    (fo.existsFile path = false →
      processEmailFile fo emailAvail pstAvail msgRich emlRich pstRich path =
        .error ("Email file not found: " ++ path) ∧
      processArchiveFile fo zipAvail rarAvail zipOpen rarOpen tarOpen path =
        .error ("Archive file not found: " ++ path)) ∧
    (fo.existsFile path = true →
      ((pathSuffixLower path = ".msg" ∨ pathSuffixLower path = ".eml" ∨
          pathSuffixLower path = ".pst") →
        ∃ r, processEmailFile fo emailAvail pstAvail msgRich emlRich pstRich
          path = .ok r) ∧
      ((pathSuffixLower path = ".zip" ∨ pathSuffixLower path = ".rar" ∨
          pathSuffixLower path = ".tar") →
        ∃ r, processArchiveFile fo zipAvail rarAvail zipOpen rarOpen tarOpen
          path = .ok r)) ∧
    (∀ reason, (fallbackProcessing fo path reason).enhanced_processing = false) ∧
    (∀ e, emlRich path = .error e →
      (processEmlFile emailAvail emlRich fo path).enhanced_processing = false) := by
  have hfb : ∀ reason,
      (fallbackProcessing fo path reason).enhanced_processing = false := by
    intro reason
    cases h : fo.readTextIgnore path <;> simp [fallbackProcessing, h]
  refine ⟨?_, ?_, hfb, ?_⟩
  · intro h
    constructor
    · simp [processEmailFile, h]
    · simp [processArchiveFile, h]
  · intro h
    constructor
    · intro hext
      rcases hext with hext | hext | hext
      · exact ⟨processMsgFile emailAvail msgRich fo path,
          by simp [processEmailFile, h, hext]⟩
      · exact ⟨processEmlFile emailAvail emlRich fo path,
          by simp [processEmailFile, h, hext]⟩
      · exact ⟨processPstFile pstAvail pstRich fo path,
          by simp [processEmailFile, h, hext]⟩
    · intro hext
      rcases hext with hext | hext | hext
      · exact ⟨processZipFile zipAvail zipOpen fo path,
          by simp [processArchiveFile, h, hext]⟩
      · exact ⟨processRarFile rarAvail rarOpen fo path,
          by simp [processArchiveFile, h, hext]⟩
      · exact ⟨processTarFile zipAvail tarOpen fo path,
          by simp [processArchiveFile, h, hext]⟩
  · intro e he
    cases ha : emailAvail with
    | false => simp [processEmlFile, ha, hfb]
    | true => simp [processEmlFile, ha, he, hfb]

/-- Witness for C3 amended at an existing `.eml` file and an existing
`.zip` file. -/
theorem c3_public_ops_amended_witness :
    fsAll.existsFile "a.eml" = true ∧
    (∃ r, processEmailFile fsAll true true richOk richOk richOk "a.eml" =
      .ok r) ∧
    (∃ r, processArchiveFile fsAll true true zipOpenEmpty zipOpenEmpty
      tarOpenEmpty "b.zip" = .ok r) :=
  ⟨rfl,
    ((c3_public_ops_amended fsAll true true true true richOk richOk richOk
        zipOpenEmpty zipOpenEmpty tarOpenEmpty "a.eml").2.1 rfl).1
      (Or.inr (Or.inl (by decide))),
    ((c3_public_ops_amended fsAll true true true true richOk richOk richOk
        zipOpenEmpty zipOpenEmpty tarOpenEmpty "b.zip").2.1 rfl).2
      (Or.inl (by decide))⟩

/-- C7: a file named `*.tar.gz` is NOT routed to the TAR path —
`Path.suffix` of `legal.tar.gz` is `.gz`, which fails every test of the
dispatch chain (the `'.tar.gz' in [...]` test can never fire), so
`process_archive_file` raises `ValueError: Unsupported archive format:
.gz`; plain `.tar` and `.zip` names dispatch fine, and `_process_tar_file`
itself selects mode `r:gz` for a `.gz` suffix, confirming the TAR path was
meant to receive such files. -/
theorem c7_targz_rejected :
    pathSuffix "legal.tar.gz" = ".gz" ∧
    processArchiveFile fsAll true true zipOpenEmpty zipOpenEmpty
        tarOpenEmpty "legal.tar.gz" =
      .error "Unsupported archive format: .gz" ∧
    processArchiveFile fsAll true true zipOpenEmpty zipOpenEmpty
        tarOpenEmpty "legal.tar.bz2" =
      .error "Unsupported archive format: .bz2" ∧
    (processArchiveFile fsAll true true zipOpenEmpty zipOpenEmpty
        tarOpenEmpty "legal.tar").isOk = true ∧
    (processArchiveFile fsAll true true zipOpenEmpty zipOpenEmpty
        tarOpenEmpty "legal.zip").isOk = true ∧
    tarMode "legal.tar.gz" = "r:gz" :=
  ⟨rfl, rfl, rfl, rfl, rfl, rfl⟩

set_option maxRecDepth 8192 in
/-- C1: processing a ZIP holding `a.txt` = `b"hello"` and `b.bin` = the
invalid UTF-8 bytes `FF FE` yields `file_count = 2` and both names in
`extracted_files`, and `raw_content` contains `hello`; but because
`decode('utf-8', errors='ignore')` never raises, the
`except UnicodeDecodeError` branch is dead and the placeholder
`[Binary file: b.bin]` never appears — `b.bin` is emitted as an empty
`text` entry instead, contradicting the claimed placeholder. -/
theorem c1_zip_binary_placeholder_missing :
    (mdGet (processZipFile true
        (fun _ => .ok [⟨"a.txt", [104, 101, 108, 108, 111]⟩,
          ⟨"b.bin", [255, 254]⟩]) fsAll "/tmp/t.zip").metadata "file_count" =
      some (.nat 2)) ∧
    (mdGet (processZipFile true
        (fun _ => .ok [⟨"a.txt", [104, 101, 108, 108, 111]⟩,
          ⟨"b.bin", [255, 254]⟩]) fsAll "/tmp/t.zip").metadata
      "extracted_files" = some (.strList ["a.txt", "b.bin"])) ∧
    ("hello".data <:+: (processZipFile true
        (fun _ => .ok [⟨"a.txt", [104, 101, 108, 108, 111]⟩,
          ⟨"b.bin", [255, 254]⟩]) fsAll "/tmp/t.zip").raw_content.data) ∧
    ¬ ("[Binary file: b.bin]".data <:+: (processZipFile true
        (fun _ => .ok [⟨"a.txt", [104, 101, 108, 108, 111]⟩,
          ⟨"b.bin", [255, 254]⟩]) fsAll "/tmp/t.zip").raw_content.data) ∧
    decodeUtf8Ignore [255, 254] = "" := by
  exact ⟨rfl, rfl, by decide, by decide, rfl⟩

end Legal
